import Mathlib

/-!
Verification development for the `ptt-spider-go` crawler pipeline.

The Go source is shallowly embedded: pure fragments of the crawler
(`crawler/crawler.go`), the listing/content extractor (`ptt/client.go`
`ParserImpl`), the markdown generator (`markdown/generator.go`) and the
configuration helpers (`config/config.go`) become Lean functions; the
relevant Go standard-library helpers (`strings.Contains`,
`strings.TrimSpace`, `filepath.Base`, `url.Parse` path extraction,
`strconv.Atoi`) are modelled on `List Char`.  Channel/goroutine lifecycle
facts are stated over event traces constrained by the wait-group and
program-order structure of the code.
-/

namespace PttSpider

/-- Model of Go `strings.HasPrefix` on character lists. -/
def isPrefixB : List Char → List Char → Bool
  | [], _ => true
  | _ :: _, [] => false
  | a :: as, b :: bs => a == b && isPrefixB as bs

/-- Model of Go `strings.Contains s pat`: some suffix of `s` starts with `pat`. -/
def hasSubstr (pat : List Char) : List Char → Bool
  | [] => pat.isEmpty
  | c :: rest => isPrefixB pat (c :: rest) || hasSubstr pat rest

/-- Model of Go `unicode.IsSpace` restricted to the Latin-1 range
(the only whitespace code points that occur in the inputs considered here). -/
def goIsSpace (c : Char) : Bool :=
  c == ' ' || c == '\t' || c == '\n' || (c == Char.ofNat 11) ||
  (c == Char.ofNat 12) || c == '\r' || (c == Char.ofNat 133) || (c == Char.ofNat 160)

/-- Model of Go `strings.TrimSpace`: drop leading and trailing whitespace. -/
def trimSpace (s : String) : String :=
  String.mk (((s.data.dropWhile goIsSpace).reverse.dropWhile goIsSpace).reverse)

/-- Drop trailing path separators, first step of Go `filepath.Base`. -/
def stripTrailing (cs : List Char) : List Char :=
  (cs.reverse.dropWhile (fun c => c == '/')).reverse

/-- The segment after the last path separator, second step of Go `filepath.Base`. -/
def lastSeg (cs : List Char) : List Char :=
  (cs.reverse.takeWhile (fun c => !(c == '/'))).reverse

/-- Model of Go `filepath.Base` (with `/` as separator): empty path gives ".",
an all-separator path gives "/", otherwise trailing separators are stripped and
the last segment is returned. -/
def filepathBase (s : String) : String :=
  if s.data = [] then "."
  else
    let cs := stripTrailing s.data
    if cs = [] then "/" else String.mk (lastSeg cs)

/-- The raw (still percent-encoded) path slice Go `net/url.Parse` isolates
for the hierarchical `scheme://host/path` URLs handled by the crawler: the
fragment (from the first `#`) and the query (from the first `?`) are cut off,
then the scheme and authority are skipped so that the path starts at the
first `/` after the host.  Non-hierarchical inputs are returned unchanged;
percent-decoding is applied afterwards by `unescapePath`. -/
def afterAuthority (cs : List Char) : List Char :=
  match cs.dropWhile (fun c => !(c == ':')) with
  | ':' :: '/' :: '/' :: rest => rest.dropWhile (fun c => !(c == '/'))
  | _ => cs

/-- Model of Go `net/url.ishex`: the hexadecimal digits accepted in a
percent-escape. -/
def isHexDigit (c : Char) : Bool :=
  c.isDigit || (decide ('a' ≤ c) && decide (c ≤ 'f')) || (decide ('A' ≤ c) && decide (c ≤ 'F'))

/-- Model of Go `net/url.unhex`: the value of a hexadecimal digit. -/
def hexDigitVal (c : Char) : Nat :=
  if c.isDigit then c.toNat - 48
  else if decide ('a' ≤ c) && decide (c ≤ 'f') then c.toNat - 87
  else if decide ('A' ≤ c) && decide (c ≤ 'F') then c.toNat - 55
  else 0

/-- Model of the percent-decoding Go `net/url.Parse` applies to the path:
each `%xy` escape with two hexadecimal digits becomes the byte it encodes
(modelled as the code point of that byte, which is exact on the ASCII range
relevant here); a `%` not followed by two hexadecimal digits is an invalid
escape and makes `url.Parse` fail (`none`). -/
def unescapePath : List Char → Option (List Char)
  | [] => some []
  | c :: cs =>
    if c = '%' then
      match cs with
      | a :: b :: rest =>
        if isHexDigit a && isHexDigit b then
          (unescapePath rest).map (fun l => Char.ofNat (16 * hexDigitVal a + hexDigitVal b) :: l)
        else none
      | _ => none
    else (unescapePath cs).map (fun l => c :: l)

/-- The `Path` field of Go `url.Parse(s)` (see `afterAuthority`), with the
percent-decoding `Parse` performs; `none` models the `err != nil` case
(an invalid escape in the path). -/
def urlParsePath (s : String) : Option String :=
  (unescapePath (afterAuthority ((s.data.takeWhile (fun c => !(c == '#'))).takeWhile
    (fun c => !(c == '?'))))).map String.mk

/-- Digits-only parser underlying the model of Go `strconv.Atoi`. -/
def digitsToNat : List Char → Option Nat
  | [] => none
  | cs => cs.foldl (fun acc c =>
      match acc with
      | none => none
      | some n => if c.isDigit then some (n * 10 + (c.toNat - 48)) else none)
      (some 0)

/-- Model of Go `strconv.Atoi`: optional sign followed by at least one digit;
anything else is an error (`none`).  Overflow is not modelled. -/
def atoiOpt (s : String) : Option Int :=
  match s.data with
  | '+' :: ds => (digitsToNat ds).map Int.ofNat
  | '-' :: ds => (digitsToNat ds).map (fun n => -(n : Int))
  | ds => (digitsToNat ds).map Int.ofNat

/-- `types.ArticleInfo` from `types/types.go`. -/
structure ArticleInfo where
  title : String
  url : String
  author : String
  pushRate : Int
deriving DecidableEq

/-- `types.DownloadTask` from `types/types.go`. -/
structure DownloadTask where
  imageURL : String
  savePath : String
deriving DecidableEq

/-- `types.MarkdownInfo` from `types/types.go`. -/
structure MarkdownInfo where
  title : String
  articleURL : String
  pushCount : Int
  imageURLs : List String
  saveDir : String
deriving DecidableEq

/-- `constants.PttBaseURL` from `constants/constants.go`. -/
def pttBaseURL : String := "https://www.ptt.cc"

/-- The character class of the `invalidChars` regular expression
in `crawler/crawler.go`: `[\/:*?"<>|]`.  Inside a character class `\/` is an
escaped forward slash, so the class holds exactly these eight characters;
a backslash character is not matched (confirmed by `TestInvalidCharsRegex`). -/
def invalidCharList : List Char := ['/', ':', '*', '?', '\"', '<', '>', '|']

/-- The scan performed by `invalidChars.ReplaceAllString(name, "")`: every
character matching the class is replaced by the empty string. -/
def removeInvalid : List Char → List Char
  | [] => []
  | c :: cs => if invalidCharList.contains c then removeInvalid cs else c :: removeInvalid cs

/-- `cleanFileName` from `crawler/crawler.go`. -/
def cleanFileName (s : String) : String := String.mk (removeInvalid s.data)

/-- The directory name computed in `Crawler.dispatchTasks`:
`fmt.Sprintf("%s_%d", cleanFileName(finalTitle), article.PushRate)`. -/
def dispatchDirName (finalTitle : String) (pushRate : Int) : String :=
  cleanFileName finalTitle ++ "_" ++ toString pushRate

/-- Model of Go `filepath.Join` for the already-clean components the crawler
joins (no trailing separators, no dot segments): empty components are skipped,
otherwise the parts are joined with a single separator. -/
def joinPath (a b : String) : String :=
  if a.data = [] then b else if b.data = [] then a else a ++ "/" ++ b

/-- `Crawler.generateFileName` from `crawler/crawler.go`: the basename of the
image URL; for `imgur.com` URLs whose basename has no extension, the basename
of the parsed URL's (percent-decoded) path with `.jpg` appended when
`url.Parse` succeeds, and the unchanged raw basename when it fails
(the `err == nil` guard in the source). -/
def generateFileName (imgURL : String) : String :=
  let fileName := filepathBase imgURL
  if hasSubstr "imgur.com".data imgURL.data && !(hasSubstr ".".data fileName.data) then
    match urlParsePath imgURL with
    | some p => filepathBase p ++ ".jpg"
    | none => fileName
  else fileName

/-- `Crawler.determineFinalTitle` from `crawler/crawler.go`. -/
def determineFinalTitle (fileURL articleTitle parsedTitle : String) : String :=
  if (fileURL ≠ "" ∧ parsedTitle ≠ "") ∨ (articleTitle = "" ∧ parsedTitle ≠ "") then
    parsedTitle
  else articleTitle

/-- A task sent downstream by a content parser: either a `DownloadTask` on the
download channel or a `MarkdownInfo` on the markdown channel. -/
inductive Task where
  | download (t : DownloadTask)
  | md (m : MarkdownInfo)
deriving DecidableEq

/-- Whether a task is a download task. -/
def Task.isDownload : Task → Bool
  | .download _ => true
  | .md _ => false

/-- Whether a task is a markdown (summary) task. -/
def Task.isMd : Task → Bool
  | .download _ => false
  | .md _ => true

/-- `Crawler.dispatchTasks` from `crawler/crawler.go`: one download task per
image URL (in order), followed by exactly one markdown task carrying the full
image-URL list.  The sends are modelled by the returned list, in send order. -/
def dispatchTasks (board finalTitle : String) (article : ArticleInfo)
    (imgURLs : List String) : List Task :=
  let dirName := dispatchDirName finalTitle article.pushRate
  let saveDir := joinPath board dirName
  let mdTask : MarkdownInfo :=
    { title := finalTitle
      articleURL := article.url
      pushCount := article.pushRate
      imageURLs := imgURLs
      saveDir := saveDir }
  (imgURLs.map (fun u =>
      Task.download { imageURL := u, savePath := joinPath saveDir (generateFileName u) }))
    ++ [Task.md mdTask]

/-- The task-dispatch slice of `Crawler.processArticle`: after
`fetchAndParseArticle` returned `(parsedTitle, imgURLs)`, the final title is
resolved and tasks are dispatched only when `len(imgURLs) > 0`. -/
def processArticleTasks (fileURL board : String) (article : ArticleInfo)
    (parsedTitle : String) (imgURLs : List String) : List Task :=
  let finalTitle := determineFinalTitle fileURL article.title parsedTitle
  if 0 < imgURLs.length then dispatchTasks board finalTitle article imgURLs else []

/-- `Config.GetDelayRange` from `config/config.go`, in nanoseconds
(`time.Duration` units): `MinMs * time.Millisecond` and `MaxMs * time.Millisecond`. -/
def getDelayRangeNs (minMs maxMs : Int) : Int × Int :=
  (minMs * 1000000, maxMs * 1000000)

/-- The argument passed to `rand.Intn` in `Crawler.shouldStop` and
`Crawler.downloadWorker`: `int(maxDelay-minDelay) / int(time.Millisecond)`. -/
def delayIntnArg (minMs maxMs : Int) : Int :=
  ((getDelayRangeNs minMs maxMs).2 - (getDelayRangeNs minMs maxMs).1) / 1000000

/-- Go `math/rand.Intn(n)` panics exactly when `n <= 0`. -/
def randIntnPanics (n : Int) : Bool := if n ≤ 0 then true else false

/-- Outcome of one run of a producer goroutine: the articles sent on the
`ArticleInfo` channel in order, whether the channel was closed on return
(the `defer close` in the source) and whether the function terminated the
process (`log.Fatalf` would; `log.Printf` followed by `return` does not). -/
structure ProducerResult where
  emitted : List ArticleInfo
  closed : Bool
  fatalExit : Bool
deriving DecidableEq

/-- `Crawler.articleProducer` from `crawler/crawler.go`, modelled for an
uncancelled run.  `maxPageRes` is the result of `Parser.GetMaxPage`;
`pageFetch p` is the combined result of fetching and parsing listing page `p`
(a failed fetch or parse skips the page, `continue` in the source).  Articles
of a page are sent only when `article.PushRate >= c.PushRate`. -/
def articleProducerRun (maxPageRes : Except String Int)
    (pageFetch : Int → Except String (List ArticleInfo))
    (pages : Nat) (pushRate : Int) : ProducerResult :=
  match maxPageRes with
  | .error _ => { emitted := [], closed := true, fatalExit := false }
  | .ok maxPage =>
      { emitted := (List.range pages).flatMap (fun i =>
          match pageFetch (maxPage - (i : Int)) with
          | .error _ => []
          | .ok articles => articles.filter (fun a => pushRate ≤ a.pushRate))
        closed := true
        fatalExit := false }

/-- The PTT article URL shape tested in `Crawler.articleProducerFromFile`:
`strings.Contains(line, "https://www.ptt.cc/bbs/")`. -/
def pttArticlePat : String := "https://www.ptt.cc/bbs/"

/-- `Crawler.articleProducerFromFile` from `crawler/crawler.go`, modelled for
an uncancelled run over the scanned lines of the input file: each line is
whitespace-trimmed and an `ArticleInfo` with `PushRate = 0` (and zero-valued
`Title` and `Author`) is sent exactly when the trimmed line contains the PTT
article URL shape. -/
def articleProducerFromFileRun (lines : List String) : List ArticleInfo :=
  lines.filterMap (fun l =>
    let line := trimSpace l
    if hasSubstr pttArticlePat.data line.data then
      some { title := "", url := line, author := "", pushRate := 0 }
    else none)

/-- One `.r-ent` entry of a listing page, as seen by
`ParserImpl.ParseArticles` (`ptt/client.go`): the number of `.title a` nodes
(zero for deleted articles), the title text, the `href` attribute, the author
text and the push-count text. -/
structure RawEntry where
  titleLinkCount : Nat
  titleText : String
  href : String
  authorText : String
  nrecText : String
deriving DecidableEq

/-- The push-rate parsing in `ParserImpl.ParseArticles`: `爆` is 100, a
leading `X` negates the parsed remainder (0 when unparsable), otherwise
`strconv.Atoi` with errors ignored (0). -/
def parsePushRate (s : String) : Int :=
  if s = "爆" then 100
  else if isPrefixB "X".data s.data then
    match atoiOpt (String.mk (s.data.drop 1)) with
    | some r => -r
    | none => 0
  else (atoiOpt s).getD 0

/-- The announcement marker skipped by `ParserImpl.ParseArticles`. -/
def announcePat : String := "公告"

/-- The article built from a kept listing entry in `ParserImpl.ParseArticles`. -/
def toArticle (e : RawEntry) : ArticleInfo :=
  { title := trimSpace e.titleText
    url := pttBaseURL ++ e.href
    author := trimSpace e.authorText
    pushRate := parsePushRate (trimSpace e.nrecText) }

/-- `ParserImpl.ParseArticles` from `ptt/client.go`: the `.Each` loop appends
one article per entry, skipping entries without a title link and entries whose
trimmed title contains `公告`. -/
def parseArticles (entries : List RawEntry) : List ArticleInfo :=
  entries.foldl (fun acc e =>
    if e.titleLinkCount = 0 then acc
    else if hasSubstr announcePat.data (trimSpace e.titleText).data then acc
    else acc ++ [toArticle e]) []

/-- The channels closed by the cleanup goroutine in `Crawler.waitAndCleanup`. -/
inductive Chan where
  | download
  | markdown
deriving DecidableEq

/-- Events of a pipeline run relevant to the channel-closing lifecycle:
a content parser sends a task on a channel, a content parser exits
(its deferred `wg.Done`), the cleanup goroutine returns from
`workers.Parsers.Wait()`, the cleanup goroutine closes a channel. -/
inductive Event where
  | send (worker : Nat) (c : Chan)
  | exitParser (worker : Nat)
  | waitDone
  | close (c : Chan)
deriving DecidableEq

/-- Whether an event is a send by a content parser. -/
def Event.isSend : Event → Bool
  | .send _ _ => true
  | _ => false

/-- Whether an event is a content-parser exit. -/
def Event.isExit : Event → Bool
  | .exitParser _ => true
  | _ => false

/-- Whether an event is a channel close. -/
def Event.isClose : Event → Bool
  | .close _ => true
  | _ => false

/-- The worker performing a send event. -/
def Event.sender : Event → Nat
  | .send w _ => w
  | _ => 0

/-- The orderings every interleaving of `Crawler.Run` satisfies, read off the
code: a content parser only sends from `processArticle`, before its deferred
`wg.Done` runs (`contentParser`); `workers.Parsers.Wait()` returns only after
every parser has called `wg.Done` (wait-group semantics); and the cleanup
goroutine in `waitAndCleanup` closes the channels only after `Wait()` has
returned (program order). -/
def ValidRun (t : List Event) : Prop :=
  (∀ i : Fin t.length, (t.get i).isSend = true →
    ∃ j : Fin t.length, i.val < j.val ∧ t.get j = Event.exitParser (t.get i).sender)
  ∧ (∀ j k : Fin t.length, t.get j = Event.waitDone → (t.get k).isExit = true →
      k.val < j.val)
  ∧ (∀ m : Fin t.length, (t.get m).isClose = true →
      ∃ j : Fin t.length, j.val < m.val ∧ t.get j = Event.waitDone)

/-- The listing page of the filtering scenario of the spec: popularities
100, 99, -5, 20 against threshold 10. -/
def scenarioPage : List ArticleInfo :=
  [{ title := "A", url := "u1", author := "x", pushRate := 100 },
   { title := "B", url := "u2", author := "x", pushRate := 99 },
   { title := "C", url := "u3", author := "x", pushRate := -5 },
   { title := "D", url := "u4", author := "x", pushRate := 20 }]

/-- The single work item of the file-mode witness scenario. -/
def fileModeDemoItem : ArticleInfo :=
  { title := "", url := "https://www.ptt.cc/bbs/Beauty/M.1.A.html", author := "", pushRate := 0 }

/-- A listing entry survives `ParserImpl.ParseArticles`: it has a title link
and its trimmed title does not contain the announcement marker. -/
def keepEntry (e : RawEntry) : Bool :=
  !(e.titleLinkCount == 0) && !(hasSubstr announcePat.data (trimSpace e.titleText).data)

/-- A normal listing entry kept in the C10 witness scenario. -/
def demoKeptEntry : RawEntry :=
  { titleLinkCount := 1, titleText := " [正妹] 測試 ", href := "/bbs/Beauty/M.1.A.html",
    authorText := "user", nrecText := "99" }

/-- The document of the C3 witness scenario. -/
def demoArticle : ArticleInfo :=
  { title := "T", url := "https://www.ptt.cc/bbs/B/M.1.html", author := "a", pushRate := 42 }

/-- A concrete interleaving of one content parser, the cleanup goroutine and
the two channel closes, used to exhibit the C1 ordering. -/
def demoTrace : List Event :=
  [Event.send 0 Chan.download, Event.send 0 Chan.markdown, Event.exitParser 0,
   Event.waitDone, Event.close Chan.download, Event.close Chan.markdown]

lemma removeInvalid_eq_filter (cs : List Char) :
    removeInvalid cs = cs.filter (fun c => !(invalidCharList.contains c)) := by
  induction cs with
  | nil => rfl
  | cons c t ih =>
    by_cases h : invalidCharList.contains c = true
    · simp [removeInvalid, List.filter_cons, h, ih]
    · simp only [Bool.not_eq_true] at h
      simp [removeInvalid, List.filter_cons, h, ih]

/-- C4: title reconciliation in `determineFinalTitle`: in file mode a
non-empty parsed title always wins; in board mode a non-empty listing title is
kept; an empty work-item title is replaced by a non-empty parsed title. -/
theorem titleResolutionRules (fileURL articleTitle parsedTitle : String) :
    (fileURL ≠ "" → parsedTitle ≠ "" →
      determineFinalTitle fileURL articleTitle parsedTitle = parsedTitle)
    ∧ (fileURL = "" → articleTitle ≠ "" →
      determineFinalTitle fileURL articleTitle parsedTitle = articleTitle)
    ∧ (articleTitle = "" → parsedTitle ≠ "" →
      determineFinalTitle fileURL articleTitle parsedTitle = parsedTitle) := by
  unfold determineFinalTitle
  refine ⟨fun h1 h2 => ?_, fun h1 h2 => ?_, fun h1 h2 => ?_⟩
  · rw [if_pos (Or.inl ⟨h1, h2⟩)]
  · rw [if_neg]
    rintro (⟨hf, -⟩ | ⟨ht, -⟩)
    · exact hf h1
    · exact h2 ht
  · rw [if_pos (Or.inr ⟨h1, h2⟩)]

/-- C4 witness: a fixed-list entry with an empty listing title and parsed
title "X" resolves to "X". -/
theorem titleResolutionRules_witness :
    determineFinalTitle "urls.txt" "" "X" = "X" :=
  (titleResolutionRules "urls.txt" "" "X").1 (by decide) (by decide)

/-- C5 counterexample: the claim says all nine of / \ : * ? " < > | are
removed, but a backslash survives `cleanFileName` unchanged (the regex class
`[\/:*?"<>|]` escapes a forward slash and does not contain a backslash),
while a forward slash is indeed removed. -/
theorem cleanFileName_backslash_counterexample :
    cleanFileName "a\\b" = "a\\b" ∧ cleanFileName "a/b" = "ab" := by
  constructor <;> rfl

/-- C5 (amended): `cleanFileName` removes exactly the eight characters
/ : * ? " < > | (a backslash is kept), preserving every other character in
order, and the dispatched directory name is the sanitized title followed by
an underscore and the popularity. -/
theorem cleanFileNameRemovesExactlyEight (s : String) (pr : Int) :
    (cleanFileName s).data = s.data.filter (fun c => !(invalidCharList.contains c))
    ∧ List.Sublist (cleanFileName s).data s.data
    ∧ (cleanFileName s).data.all (fun c => !(invalidCharList.contains c)) = true
    ∧ (dispatchDirName s pr).data = (cleanFileName s).data ++ '_' :: (toString pr).data := by
  have h1 : (cleanFileName s).data = s.data.filter (fun c => !(invalidCharList.contains c)) :=
    removeInvalid_eq_filter s.data
  refine ⟨h1, ?_, ?_, ?_⟩
  · rw [h1]; exact List.filter_sublist s.data
  · rw [h1]
    exact List.all_eq_true.2 (fun c hc => (List.mem_filter.1 hc).2)
  · simp [dispatchDirName, String.data_append]

/-- C7: when `GetMaxPage` fails (and the run is not cancelled),
`articleProducer` returns without emitting anything, closing its output
channel via the deferred close, and without terminating the process; the
rest of the pipeline then drains normally. -/
theorem maxPageFailureGraceful (msg : String)
    (pageFetch : Int → Except String (List ArticleInfo)) (pages : Nat) (pushRate : Int) :
    articleProducerRun (Except.error msg) pageFetch pages pushRate
      = { emitted := [], closed := true, fatalExit := false } := rfl

/-- C9: the politeness-delay computation passes
`(MaxMs - MinMs)` to `rand.Intn`; with an empty delay window
(`MaxMs = MinMs`, including the zero-value configuration) the argument is 0
and `rand.Intn` panics, while `MinMs < MaxMs` is safe. -/
theorem emptyDelayWindowPanics (minMs maxMs : Int) :
    (maxMs = minMs →
      delayIntnArg minMs maxMs = 0 ∧ randIntnPanics (delayIntnArg minMs maxMs) = true)
    ∧ (minMs < maxMs → randIntnPanics (delayIntnArg minMs maxMs) = false) := by
  have harg : delayIntnArg minMs maxMs = maxMs - minMs := by
    unfold delayIntnArg getDelayRangeNs
    simp only
    omega
  constructor
  · intro h
    rw [harg, h]
    simp [randIntnPanics]
  · intro h
    rw [harg]
    simp only [randIntnPanics, if_neg (by omega : ¬ (maxMs - minMs ≤ 0))]

/-- C9 witness: the zero-value configuration panics. -/
theorem emptyDelayWindowPanics_witness :
    randIntnPanics (delayIntnArg 0 0) = true :=
  ((emptyDelayWindowPanics 0 0).1 rfl).2

/-- C2: in board mode, every article the producer sends downstream meets the
configured push-rate threshold. -/
theorem producerEmitsOnlyAboveThreshold (maxPageRes : Except String Int)
    (pageFetch : Int → Except String (List ArticleInfo)) (pages : Nat)
    (pushRate : Int) (a : ArticleInfo)
    (ha : a ∈ (articleProducerRun maxPageRes pageFetch pages pushRate).emitted) :
    pushRate ≤ a.pushRate := by
  cases maxPageRes with
  | error e => simp [articleProducerRun] at ha
  | ok maxPage =>
    simp only [articleProducerRun, List.mem_flatMap] at ha
    obtain ⟨i, -, hmem⟩ := ha
    cases h : pageFetch (maxPage - (i : Int)) with
    | error e => rw [h] at hmem; simp at hmem
    | ok arts =>
        rw [h] at hmem
        exact of_decide_eq_true (List.mem_filter.1 hmem).2

/-- C2 witness: in the spec scenario the article with popularity 100 is
emitted and meets the threshold. -/
theorem producerEmitsOnlyAboveThreshold_witness :
    ({ title := "A", url := "u1", author := "x", pushRate := 100 } : ArticleInfo)
        ∈ (articleProducerRun (Except.ok 5) (fun _ => Except.ok scenarioPage)
            1 10).emitted
    ∧ (10 : Int) ≤
        ({ title := "A", url := "u1", author := "x", pushRate := 100 } : ArticleInfo).pushRate :=
  ⟨by decide,
   producerEmitsOnlyAboveThreshold (Except.ok 5) (fun _ => Except.ok scenarioPage)
     1 10 _ (by decide)⟩

lemma filterMap_map_filter {α β γ : Type} (f : α → β) (p : β → Bool) (g : β → γ)
    (l : List α) :
    l.filterMap (fun a => if p (f a) then some (g (f a)) else none)
      = ((l.map f).filter p).map g := by
  induction l with
  | nil => rfl
  | cons a t ih =>
    cases h : p (f a) with
    | true => simp [List.filterMap_cons, List.filter_cons, h, ih]
    | false => simp [List.filterMap_cons, List.filter_cons, h, ih]

/-- C8: in file mode the producer emits exactly one work item per line whose
trimmed text contains the PTT article URL shape, in file order, each with an
empty title and push rate 0; other lines are skipped. -/
theorem fileModeEmissionExact (lines : List String) :
    articleProducerFromFileRun lines
      = ((lines.map trimSpace).filter (fun l => hasSubstr pttArticlePat.data l.data)).map
          (fun l => { title := "", url := l, author := "", pushRate := 0 })
    ∧ ∀ a ∈ articleProducerFromFileRun lines, a.pushRate = 0 ∧ a.title = "" := by
  have h1 : articleProducerFromFileRun lines
      = ((lines.map trimSpace).filter (fun l => hasSubstr pttArticlePat.data l.data)).map
          (fun l => { title := "", url := l, author := "", pushRate := 0 }) := by
    unfold articleProducerFromFileRun
    exact filterMap_map_filter trimSpace (fun l => hasSubstr pttArticlePat.data l.data)
      (fun l => ({ title := "", url := l, author := "", pushRate := 0 } : ArticleInfo)) lines
  refine ⟨h1, fun a ha => ?_⟩
  rw [h1] at ha
  obtain ⟨l, -, hl⟩ := List.mem_map.1 ha
  rw [← hl]
  exact ⟨rfl, rfl⟩

/-- C8 witness: a trimmed matching line yields one item with push rate 0 and
empty title. -/
theorem fileModeEmissionExact_witness :
    fileModeDemoItem.pushRate = 0 ∧ fileModeDemoItem.title = "" :=
  (fileModeEmissionExact ["  https://www.ptt.cc/bbs/Beauty/M.1.A.html  "]).2
    fileModeDemoItem (by decide)

lemma parseArticles_foldl_eq (entries : List RawEntry) :
    ∀ acc : List ArticleInfo,
      entries.foldl (fun acc e =>
        if e.titleLinkCount = 0 then acc
        else if hasSubstr announcePat.data (trimSpace e.titleText).data then acc
        else acc ++ [toArticle e]) acc
      = acc ++ (entries.filter keepEntry).map toArticle := by
  induction entries with
  | nil => intro acc; simp
  | cons e t ih =>
    intro acc
    simp only [List.foldl_cons, List.filter_cons]
    by_cases h0 : e.titleLinkCount = 0
    · have hk : keepEntry e = false := by
        simp [keepEntry, h0]
      simp only [if_pos h0, hk, ih, Bool.false_eq_true, if_false]
    · by_cases h1 : hasSubstr announcePat.data (trimSpace e.titleText).data = true
      · have hk : keepEntry e = false := by
          simp [keepEntry, h1]
        simp only [if_neg h0, if_pos h1, hk, ih, Bool.false_eq_true, if_false]
      · have hk : keepEntry e = true := by
          simp only [Bool.not_eq_true] at h1
          simp [keepEntry, h0, h1]
        simp only [Bool.not_eq_true] at h1
        simp only [if_neg h0, h1, Bool.false_eq_true, if_false, hk, if_true, ih,
          List.map_cons, List.append_assoc, List.singleton_append]

/-- C10: the listing extractor returns exactly the entries that have a title
link and whose trimmed title does not contain 公告, in page order; in
particular no returned article's title contains 公告 and deleted entries
(no title link) are never returned, regardless of popularity. -/
theorem listingExcludesAnnouncementsAndDeleted (entries : List RawEntry) :
    parseArticles entries = (entries.filter keepEntry).map toArticle
    ∧ ∀ a ∈ parseArticles entries, hasSubstr announcePat.data a.title.data = false := by
  have h1 : parseArticles entries = (entries.filter keepEntry).map toArticle := by
    unfold parseArticles
    simpa using parseArticles_foldl_eq entries []
  refine ⟨h1, fun a ha => ?_⟩
  rw [h1] at ha
  obtain ⟨e, he, hea⟩ := List.mem_map.1 ha
  have hk : keepEntry e = true := (List.mem_filter.1 he).2
  have h2 : hasSubstr announcePat.data (trimSpace e.titleText).data = false := by
    have hk2 := hk
    simp only [keepEntry, Bool.and_eq_true, Bool.not_eq_true, Bool.not_eq_true'] at hk2
    exact hk2.2
  rw [← hea]
  exact h2

lemma Task.isMd_eq_false_of_isDownload (t : Task) (h : t.isDownload = true) :
    t.isMd = false := by
  cases t with
  | download d => rfl
  | md m => exact absurd h (by simp [Task.isDownload])

lemma tasks_append_md_props (L : List Task) (hL : ∀ t ∈ L, Task.isDownload t = true)
    (m : MarkdownInfo) :
    ((L ++ [Task.md m]).filter Task.isMd).length = 1
    ∧ ((L ++ [Task.md m]).filter Task.isDownload).length = L.length
    ∧ (∀ m2 : MarkdownInfo, Task.md m2 ∈ L ++ [Task.md m] → m2 = m)
    ∧ ∀ (i j : Nat) (hi : i < (L ++ [Task.md m]).length)
        (hj : j < (L ++ [Task.md m]).length),
        Task.isDownload ((L ++ [Task.md m])[i]) = true →
        Task.isMd ((L ++ [Task.md m])[j]) = true → i < j := by
  have hmdL : L.filter Task.isMd = [] := by
    refine List.filter_eq_nil_iff.2 (fun t ht => ?_)
    rw [Task.isMd_eq_false_of_isDownload t (hL t ht)]
    simp
  have hdlL : L.filter Task.isDownload = L := List.filter_eq_self.2 hL
  refine ⟨?_, ?_, ?_, ?_⟩
  · simp [List.filter_append, hmdL, Task.isMd]
  · simp [List.filter_append, hdlL, Task.isDownload]
  · intro m2 hm2
    rcases List.mem_append.1 hm2 with h | h
    · exact absurd (hL _ h) (by simp [Task.isDownload])
    · simp only [List.mem_singleton, Task.md.injEq] at h
      exact h
  · intro i j hi hj hdi hmj
    have hlen : (L ++ [Task.md m]).length = L.length + 1 := by simp
    have hjL : j = L.length := by
      by_contra hne
      have hjlt : j < L.length := by omega
      have : (L ++ [Task.md m])[j] = L[j] := List.getElem_append_left hjlt
      rw [this] at hmj
      have := Task.isMd_eq_false_of_isDownload _ (hL _ (List.getElem_mem hjlt))
      rw [this] at hmj
      exact Bool.false_ne_true hmj
    have hiL : i ≠ L.length := by
      intro hieq
      subst hieq
      have : (L ++ [Task.md m])[L.length] = Task.md m := by
        rw [List.getElem_append_right (Nat.le_refl L.length)]
        simp
      rw [this] at hdi
      exact Bool.false_ne_true hdi
    omega

lemma dispatchTasks_eq (board ft : String) (article : ArticleInfo)
    (imgURLs : List String) :
    dispatchTasks board ft article imgURLs
      = (imgURLs.map (fun u => Task.download
            { imageURL := u
              savePath := joinPath (joinPath board (dispatchDirName ft article.pushRate))
                (generateFileName u) }))
          ++ [Task.md
              { title := ft
                articleURL := article.url
                pushCount := article.pushRate
                imageURLs := imgURLs
                saveDir := joinPath board (dispatchDirName ft article.pushRate) }] := rfl

/-- C3: a document worker produces tasks exactly when extraction yielded at
least one resource URL: an empty image list produces no media tasks and no
summary task; a non-empty list produces exactly one summary task, carrying
the full resource list in extraction order, sent after one media task per
resource. -/
theorem tasksDispatchedIffResources (fileURL board : String) (article : ArticleInfo)
    (parsedTitle : String) (imgURLs : List String) :
    (imgURLs = [] → processArticleTasks fileURL board article parsedTitle imgURLs = [])
    ∧ (imgURLs ≠ [] →
        ((processArticleTasks fileURL board article parsedTitle imgURLs).filter
            Task.isMd).length = 1
        ∧ ((processArticleTasks fileURL board article parsedTitle imgURLs).filter
            Task.isDownload).length = imgURLs.length
        ∧ (∀ m : MarkdownInfo,
            Task.md m ∈ processArticleTasks fileURL board article parsedTitle imgURLs →
              m.imageURLs = imgURLs)
        ∧ ∀ (i j : Nat)
            (hi : i < (processArticleTasks fileURL board article parsedTitle imgURLs).length)
            (hj : j < (processArticleTasks fileURL board article parsedTitle imgURLs).length),
            Task.isDownload
              ((processArticleTasks fileURL board article parsedTitle imgURLs)[i]) = true →
            Task.isMd
              ((processArticleTasks fileURL board article parsedTitle imgURLs)[j]) = true →
            i < j) := by
  constructor
  · intro h
    subst h
    rfl
  · intro hne
    have hlen : 0 < imgURLs.length := List.length_pos.2 hne
    have hts : processArticleTasks fileURL board article parsedTitle imgURLs
        = dispatchTasks board (determineFinalTitle fileURL article.title parsedTitle)
            article imgURLs := by
      unfold processArticleTasks
      rw [if_pos hlen]
    have hL : ∀ t ∈ imgURLs.map (fun u => Task.download
        { imageURL := u
          savePath := joinPath (joinPath board (dispatchDirName
              (determineFinalTitle fileURL article.title parsedTitle) article.pushRate))
            (generateFileName u) }), Task.isDownload t = true := by
      intro t ht
      obtain ⟨u, -, hu⟩ := List.mem_map.1 ht
      rw [← hu]
      rfl
    obtain ⟨h1, h2, h3, h4⟩ := tasks_append_md_props _ hL
      { title := determineFinalTitle fileURL article.title parsedTitle
        articleURL := article.url
        pushCount := article.pushRate
        imageURLs := imgURLs
        saveDir := joinPath board (dispatchDirName
          (determineFinalTitle fileURL article.title parsedTitle) article.pushRate) }
    rw [hts, dispatchTasks_eq]
    refine ⟨h1, ?_, ?_, h4⟩
    · rw [h2, List.length_map]
    · intro m2 hm2
      rw [h3 m2 hm2]

/-- C3 witness: a document with two image links produces exactly one summary
task. -/
theorem tasksDispatchedIffResources_witness :
    ((processArticleTasks "" "Beauty" demoArticle "P"
        ["https://i.imgur.com/a.jpg", "https://i.imgur.com/b.jpg"]).filter
      Task.isMd).length = 1 :=
  ((tasksDispatchedIffResources "" "Beauty" demoArticle "P"
      ["https://i.imgur.com/a.jpg", "https://i.imgur.com/b.jpg"]).2 (by decide)).1

/-- C10 witness: the kept entry's article title does not contain 公告. -/
theorem listingExcludesAnnouncementsAndDeleted_witness :
    hasSubstr announcePat.data (toArticle demoKeptEntry).title.data = false :=
  (listingExcludesAnnouncementsAndDeleted
      [{ titleLinkCount := 0, titleText := "", href := "", authorText := "", nrecText := "" },
       { titleLinkCount := 1, titleText := "[公告] 版規", href := "/x", authorText := "m",
         nrecText := "爆" },
       demoKeptEntry]).2
    (toArticle demoKeptEntry) (by decide)

/-- C1: in every interleaving satisfying the orderings enforced by
`Crawler.waitAndCleanup`, wait-group semantics and the program order of
`Crawler.contentParser` (`ValidRun`), every send by a content parser on the
download or markdown channel strictly precedes every close of those
channels: the channels are closed only after all content parsers exited, so
no send can hit a closed channel. -/
theorem closeAfterAllParserSends (t : List Event) (hv : ValidRun t)
    (i m : Fin t.length) (hs : (t.get i).isSend = true)
    (hc : (t.get m).isClose = true) : i.val < m.val := by
  obtain ⟨j, hij, hje⟩ := hv.1 i hs
  obtain ⟨w, hwm, hwd⟩ := hv.2.2 m hc
  have hjw : j.val < w.val := by
    refine hv.2.1 w j hwd ?_
    rw [hje]
    rfl
  omega

/-- C1 witness: the demo interleaving is a valid run, and in it the first
send (index 0) precedes the close of the download channel (index 4). -/
theorem closeAfterAllParserSends_witness :
    ValidRun demoTrace ∧ (0 : Nat) < 4 :=
  ⟨by unfold ValidRun; decide,
   closeAfterAllParserSends demoTrace (by unfold ValidRun; decide) ⟨0, by decide⟩
     ⟨4, by decide⟩ (by decide) (by decide)⟩

end PttSpider
